import Mathlib

/-!
Verification development for the listmonk-go client library.

The library maps a REST API onto typed request/response calls.  Its core is
in `client.go`: a transport primitive (`do`), a multipart upload path
(`multipart`), and a generic envelope decoder (`decode`).  The endpoint files
are thin wrappers over these.

This file gives a shallow embedding of that core:

* `Json` is a model of JSON documents.  Numbers are modelled as integers
  (no endpoint under verification exchanges fractional numbers); string
  escapes cover the basic forms used by the service.
* `Json.parse` models the syntax acceptance of `encoding/json`'s decoder
  (one value parsed from the stream, trailing bytes ignored).
* `decodeErrorResponse`, `decodeResponseJson`, `decodeJsonList` model Go's
  reflection-driven unmarshalling into the `ErrorResponse` and
  `Response[T]` structs and into slices: JSON object keys are matched
  case-insensitively, later duplicate keys overwrite earlier ones, unknown
  keys are ignored, absent keys leave the zero value, and a JSON `null`
  leaves a string field unchanged.
* The generic payload type `T` of `decode[T]` is represented by a decoding
  function `Json → Option α`; endpoint wrappers instantiate it.
* `GoError` distinguishes the two error values produced by `decode`:
  `errorsNew msg` for `errors.New(data.Message)` (protocol errors) and
  `jsonDecodeError` for failures of the JSON decoder itself (decode
  errors), which are modelled opaquely.
-/

inductive Json where
  | null : Json
  | bool (b : Bool) : Json
  | num (n : Int) : Json
  | str (s : String) : Json
  | arr (items : List Json) : Json
  | obj (fields : List (String × Json)) : Json

/-- Whitespace skipping, as in `encoding/json`: space, tab, newline, return. -/
def skipWs : List Char → List Char
  | [] => []
  | c :: cs => if c = ' ' ∨ c = '\t' ∨ c = '\n' ∨ c = '\r' then skipWs cs else c :: cs

/-- Basic JSON string escapes (`\"`, `\\`, `\/`, `\n`, `\t`, `\r`, `\b`, `\f`). -/
def escChar : Char → Option Char
  | '"' => some ('"')
  | '\\' => some ('\\')
  | '/' => some ('/')
  | 'n' => some ('\n')
  | 't' => some ('\t')
  | 'r' => some ('\r')
  | 'b' => some (Char.ofNat 8)
  | 'f' => some (Char.ofNat 12)
  | _ => none

/-- Characters of a JSON string body up to the closing quote. -/
def parseStringChars : List Char → Option (List Char × List Char)
  | [] => none
  | '"' :: rest => some ([], rest)
  | '\\' :: rest =>
    match rest with
    | [] => none
    | e :: rest2 =>
      (escChar e).bind (fun c => (parseStringChars rest2).map (fun p => (c :: p.1, p.2)))
  | c :: rest => (parseStringChars rest).map (fun p => (c :: p.1, p.2))

/-- Body of a JSON string literal, after the opening quote. -/
def parseStringBody (cs : List Char) : Option (String × List Char) :=
  (parseStringChars cs).map (fun p => (String.mk p.1, p.2))

/-- Greedy decimal digit run, accumulating the value. -/
def parseDigitsAux (acc : Nat) : List Char → (Nat × List Char)
  | [] => (acc, [])
  | c :: rest =>
    if c.isDigit then parseDigitsAux (acc * 10 + (c.toNat - 48)) rest else (acc, c :: rest)

/-- At least one decimal digit. -/
def parseDigits : List Char → Option (Nat × List Char)
  | [] => none
  | c :: rest => if c.isDigit then some (parseDigitsAux 0 (c :: rest)) else none

mutual

/-- One JSON value, fuelled; returns the value and the unconsumed input. -/
def parseVal : Nat → List Char → Option (Json × List Char)
  | 0, _ => none
  | fuel + 1, cs =>
    match skipWs cs with
    | 'n' :: 'u' :: 'l' :: 'l' :: rest => some (.null, rest)
    | 't' :: 'r' :: 'u' :: 'e' :: rest => some (.bool true, rest)
    | 'f' :: 'a' :: 'l' :: 's' :: 'e' :: rest => some (.bool false, rest)
    | '"' :: rest => (parseStringBody rest).map (fun p => (.str p.1, p.2))
    | '[' :: rest =>
      (match skipWs rest with
       | ']' :: rest2 => some (.arr [], rest2)
       | cs2 => (parseItems fuel cs2).map (fun p => (.arr p.1, p.2)))
    | '{' :: rest =>
      (match skipWs rest with
       | '}' :: rest2 => some (.obj [], rest2)
       | cs2 => (parseFields fuel cs2).map (fun p => (.obj p.1, p.2)))
    | '-' :: rest =>
      (parseDigits rest).map (fun p => (.num (-(p.1 : Int)), p.2))
    | c :: rest =>
      if c.isDigit then (parseDigits (c :: rest)).map (fun p => (.num (p.1 : Int), p.2))
      else none
    | [] => none

/-- Comma-separated array items up to the closing bracket. -/
def parseItems : Nat → List Char → Option (List Json × List Char)
  | 0, _ => none
  | fuel + 1, cs =>
    (parseVal fuel cs).bind (fun p =>
      match skipWs p.2 with
      | ',' :: rest2 => (parseItems fuel rest2).map (fun q => (p.1 :: q.1, q.2))
      | ']' :: rest2 => some ([p.1], rest2)
      | _ => none)

/-- Comma-separated object members up to the closing brace. -/
def parseFields : Nat → List Char → Option (List (String × Json) × List Char)
  | 0, _ => none
  | fuel + 1, cs =>
    match skipWs cs with
    | '"' :: rest =>
      (parseStringBody rest).bind (fun kp =>
        match skipWs kp.2 with
        | ':' :: rest3 =>
          (parseVal fuel rest3).bind (fun vp =>
            match skipWs vp.2 with
            | ',' :: rest5 => (parseFields fuel rest5).map (fun q => ((kp.1, vp.1) :: q.1, q.2))
            | '}' :: rest5 => some ([(kp.1, vp.1)], rest5)
            | _ => none)
        | _ => none)
    | _ => none

end

/-- Model of `json.Decoder.Decode`'s syntax acceptance: parse one JSON value
from the body, ignoring anything after it (the decoder reads one value from
the stream).  `none` models a decoder error. -/
def Json.parse (s : String) : Option Json :=
  (parseVal (s.length + 1) s.data).map (fun p => p.1)

/-- Case folding used for Go's case-insensitive JSON key matching
(ASCII keys in this development). -/
def lowerKey (s : String) : String :=
  String.mk (s.data.map Char.toLower)

/-- Decoding a JSON value into a Go `string` field holding `current`:
a string replaces it, `null` leaves it unchanged, anything else is a
type mismatch. -/
def decodeStringField (current : String) : Json → Option String
  | .str s => some s
  | .null => some current
  | _ => none

/-- Model of unmarshalling into `ErrorResponse` (`client.go`):
a struct with a single field `Message string` tagged `json:"message"`.
Key match is case-insensitive, later duplicates overwrite, unknown keys are
ignored, an absent key leaves the zero value `""`, and non-object input
(other than `null`) is a decode error. -/
def decodeErrorResponse : Json → Option String
  | .null => some ("")
  | .obj fields =>
    fields.foldl
      (fun acc kv =>
        acc.bind (fun cur =>
          if lowerKey kv.1 = "message" then decodeStringField cur kv.2 else some cur))
      (some (""))
  | _ => none

/-- The success envelope `Response[T]` (`client.go`): a struct with a single
field `Data T` tagged `json:"data"`. -/
structure Response (α : Type) where
  data : α

/-- Model of unmarshalling into `Response[T]`.  `zero` is the zero value of
`T`, `dec` decodes a JSON value into `T`. -/
def decodeResponseJson (zero : α) (dec : Json → Option α) : Json → Option (Response α)
  | .null => some ⟨zero⟩
  | .obj fields =>
    (fields.foldl
      (fun acc kv =>
        acc.bind (fun cur => if lowerKey kv.1 = "data" then dec kv.2 else some cur))
      (some zero)).map Response.mk
  | _ => none

/-- Model of unmarshalling into a Go slice `[]T`: `null` gives the nil
slice, an array decodes elementwise, anything else is a type mismatch. -/
def decodeJsonList (dec : Json → Option α) : Json → Option (List α)
  | .null => some []
  | .arr xs => xs.mapM dec
  | _ => none

/-- A completed HTTP response, as `decode` sees it: the status code and the
body stream (read exactly once). -/
structure HttpResponse where
  statusCode : Nat
  body : String

/-- The error values produced by the decoding layer: `errorsNew msg` models
`errors.New(data.Message)` (a protocol error carrying the service's message),
`jsonDecodeError` models an error returned by `encoding/json` itself (a
decode error, modelled opaquely). -/
inductive GoError where
  | errorsNew (message : String) : GoError
  | jsonDecodeError : GoError
deriving DecidableEq

/-- Model of `decode[T]` (`client.go` lines 119-135): on a non-200 status,
unmarshal the body as `ErrorResponse` and fail with `errors.New` of its
message, or with the decoder's own error if that unmarshalling fails; on
status 200, unmarshal the body as `T` and return it, or fail with the
decoder's error. -/
def decode (dec : Json → Option α) (resp : HttpResponse) : Except GoError α :=
  if resp.statusCode ≠ 200 then
    match Json.parse resp.body with
    | none => .error .jsonDecodeError
    | some j =>
      match decodeErrorResponse j with
      | none => .error .jsonDecodeError
      | some msg => .error (.errorsNew msg)
  else
    match Json.parse resp.body with
    | none => .error .jsonDecodeError
    | some j =>
      match dec j with
      | none => .error .jsonDecodeError
      | some a => .ok a

/-- Decimal digits of `n`, most significant first, with enough fuel. -/
def natToDigits : Nat → Nat → List Char
  | 0, _ => []
  | fuel + 1, n =>
    if n < 10 then [Char.ofNat (48 + n)]
    else natToDigits fuel (n / 10) ++ [Char.ofNat (48 + n % 10)]

/-- Decimal rendering of a natural number. -/
def natToString (n : Nat) : String :=
  String.mk (natToDigits (n + 1) n)

/-- Model of Go's decimal formatting of an `int`
(`fmt.Sprint` / `strconv.Itoa`). -/
def intToString (i : Int) : String :=
  if i < 0 then "-" ++ natToString i.natAbs else natToString i.natAbs

/-- JSON string escaping used when serializing
(`"`, `\`, newline, tab, carriage return; the HTML-escaping `encoding/json`
additionally applies to `<`, `>`, `&` is not modelled — no claim under
verification serializes those characters). -/
def jsonEscapeChar (c : Char) : List Char :=
  if c = '"' then ['\\', '"']
  else if c = '\\' then ['\\', '\\']
  else if c = '\n' then ['\\', 'n']
  else if c = '\t' then ['\\', 't']
  else if c = '\r' then ['\\', 'r']
  else [c]

/-- A JSON string literal for `s`. -/
def quoteString (s : String) : String :=
  String.mk ('"' :: (s.data.flatMap jsonEscapeChar ++ ['"']))

/-- Serialization of a JSON value, fuelled by term depth. -/
def printJsonF : Nat → Json → String
  | _, .null => "null"
  | _, .bool true => "true"
  | _, .bool false => "false"
  | _, .num n => intToString n
  | _, .str s => quoteString s
  | 0, _ => ""
  | fuel + 1, .arr xs =>
    "[" ++ String.intercalate (",") (xs.map (printJsonF fuel)) ++ "]"
  | fuel + 1, .obj fs =>
    "\x7b" ++
      String.intercalate (",")
        (fs.map (fun kv => quoteString kv.1 ++ ":" ++ printJsonF fuel kv.2)) ++
      "\x7d"

/-- Model of `encoding/json` serialization (`json.Marshal`) for documents
of depth below the supplied fuel; the marshal models below apply it with
fuel exceeding their document's fixed depth. -/
def printJsonD (depth : Nat) (j : Json) : String :=
  printJsonF depth j

/-- Unreserved characters of `net/url`'s query escaping: alphanumerics and
`-`, `_`, `.`, `~` (code points 45, 95, 46, 126) stay literal. -/
def isUnreservedChar (c : Char) : Bool :=
  (65 ≤ c.toNat && c.toNat ≤ 90) || (97 ≤ c.toNat && c.toNat ≤ 122) ||
    (48 ≤ c.toNat && c.toNat ≤ 57) ||
    c.toNat == 45 || c.toNat == 95 || c.toNat == 46 || c.toNat == 126

/-- Upper-case hexadecimal digit, as `net/url` emits. -/
def hexDigitChar (n : Nat) : Char :=
  if n < 10 then Char.ofNat (48 + n) else Char.ofNat (55 + n)

/-- UTF-8 bytes of one character (Go strings are byte strings; escaping
operates on bytes). -/
def utf8Encode (c : Char) : List Nat :=
  let n := c.toNat
  if n < 128 then [n]
  else if n < 2048 then [192 + n / 64, 128 + n % 64]
  else if n < 65536 then [224 + n / 4096, 128 + n / 64 % 64, 128 + n % 64]
  else [240 + n / 262144, 128 + n / 4096 % 64, 128 + n / 64 % 64, 128 + n % 64]

/-- Query escaping of one character: unreserved characters stay, space
becomes `+`, every other byte of the character's UTF-8 encoding becomes
`%XX`.  Bytewise identical to `net/url.QueryEscape`: every byte of a
multi-byte character is at least `0x80` and hence escaped. -/
def escapeQueryChar (c : Char) : List Char :=
  if isUnreservedChar c then [c]
  else if c.toNat = 32 then ['+']
  else (utf8Encode c).flatMap (fun b => ['%', hexDigitChar (b / 16), hexDigitChar (b % 16)])

/-- Model of `net/url.QueryEscape` over a character list. -/
def escapeChars (cs : List Char) : List Char :=
  cs.flatMap escapeQueryChar

/-- Model of `net/url.QueryEscape`. -/
def queryEscape (s : String) : String :=
  String.mk (escapeChars s.data)

/-- All values stored under `key`, in insertion order — the slice
`url.Values[key]`. -/
def valuesOf (key : String) (pairs : List (String × String)) : List String :=
  pairs.filterMap (fun kv => if kv.1 = key then some kv.2 else none)

/-- Lexicographic comparison of character lists by code point — on the
ASCII keys of this development, identical to Go's byte-wise `sort.Strings`
order. -/
def charListLe : List Char → List Char → Bool
  | [], _ => true
  | _ :: _, [] => false
  | a :: as, b :: bs =>
    if a.toNat < b.toNat then true
    else if b.toNat < a.toNat then false
    else charListLe as bs

/-- String order used when `Encode` sorts the keys. -/
def goStringLe (a b : String) : Bool :=
  charListLe a.data b.data

/-- The distinct keys of a pair list, sorted — the iteration order of
`url.Values.Encode`. -/
def sortedKeys (pairs : List (String × String)) : List String :=
  ((pairs.map Prod.fst).dedup).insertionSort (fun a b => goStringLe a b = true)

/-- One `key=value` segment of an encoded query string. -/
def querySegment (kv : String × String) : List Char :=
  escapeChars kv.1.data ++ '=' :: escapeChars kv.2.data

/-- Join segments with `&` separators, as `Encode`'s buffer does. -/
def joinAmp : List (List Char) → List Char
  | [] => []
  | [s] => s
  | s :: rest => s ++ '&' :: joinAmp rest

/-- The `(key, value)` pairs in the order `url.Values.Encode` emits them:
keys sorted, each key's stored values in insertion order. -/
def encodeOrder (pairs : List (String × String)) : List (String × String) :=
  (sortedKeys pairs).flatMap (fun k => (valuesOf k pairs).map (fun v => (k, v)))

/-- Model of `url.Values.Encode` (`q.Encode()` in `do`): iterate the keys
in sorted order and emit `key=value` for each stored value in insertion
order, separated by `&`, both sides query-escaped. -/
def encodeValues (pairs : List (String × String)) : String :=
  String.mk (joinAmp ((encodeOrder pairs).map querySegment))

/-- A form part of a multipart body: field name, optional file name (file
parts carry one, plain fields do not), and content. -/
structure FormPart where
  name : String
  filename : Option String
  content : String
deriving DecidableEq

/-- The request body `do` and `multipart` attach: none, a JSON document, or
a multipart/form-data document (modelled by its parts; the MIME boundary
framing is abstracted). -/
inductive RequestBody where
  | empty : RequestBody
  | jsonText (s : String) : RequestBody
  | multipartForm (parts : List FormPart) : RequestBody
deriving DecidableEq

/-- The parts of a multipart body (empty for the other body kinds). -/
def RequestBody.parts : RequestBody → List FormPart
  | .multipartForm ps => ps
  | _ => []

/-- Client configuration (`ClientConfig` in `client.go`); the injectable
HTTP transport is outside the model. -/
structure ClientConfig where
  baseURL : String
  apiUser : String
  token : String
deriving DecidableEq

/-- Model of `(*Client).auth`: the static authorization header value. -/
def auth (c : ClientConfig) : String :=
  "token " ++ c.apiUser ++ ":" ++ c.token

/-- Model of `url.JoinPath` at the level the claims need; path cleaning is
not modelled. -/
def joinPath (base path : String) : String :=
  base ++ path

/-- An outgoing HTTP request as built by the transport primitive. -/
structure Request where
  method : String
  url : String
  body : RequestBody
  contentType : String
  authorization : String
deriving DecidableEq

/-- A non-nil `data any` argument as `do` observes it: `query.Values(data)`
yields `queryPairs` (fields in declaration order, slice fields repeated per
element) and `json.Marshal`-style serialization of the value produces the
document `jsonText` (the encoder then terminates it with a newline).
Models values on which both encodings succeed, which covers every parameter
struct of this repository. -/
structure GoValue where
  queryPairs : List (String × String)
  jsonText : String

/-- Model of `(*Client).do` (`client.go` lines 25-65): join base URL and
path; for non-nil data append the encoded query string when non-empty;
attach a JSON body exactly for POST/PUT with non-nil data (the encoder
terminates the document with a newline); set the JSON content type and the
static authorization header. -/
def doRequest (c : ClientConfig) (method path : String) (data : Option GoValue) : Request :=
  let endpoint := joinPath c.baseURL path
  let endpoint :=
    match data with
    | none => endpoint
    | some d =>
      let encoded := encodeValues d.queryPairs
      if encoded.length > 0 then endpoint ++ "?" ++ encoded else endpoint
  let body : RequestBody :=
    if (method = "POST" ∨ method = "PUT") ∧ data.isSome then
      match data with
      | some d => .jsonText (d.jsonText ++ "\n")
      | none => .empty
    else .empty
  ⟨method, endpoint, body, "application/json", auth c⟩

/-- Model of `(*Client).multipart` (`client.go` lines 67-109): one POST
request whose body is a single multipart/form-data document with one file
part per entry of `files` (filename equal to the field key, as
`CreateFormFile(key, key)` sets it) followed by one plain field per entry
of `fields`.  The Go maps iterate in unspecified order; the model takes
association lists in the order the source ranges over them (files first).
The content type carries the writer's boundary, modelled by its media
type. -/
def multipartRequest (c : ClientConfig) (path : String)
    (fields files : List (String × String)) : Request :=
  let parts :=
    files.map (fun kv => FormPart.mk kv.1 (some kv.1) kv.2) ++
      fields.map (fun kv => FormPart.mk kv.1 none kv.2)
  ⟨"POST", joinPath c.baseURL path, .multipartForm parts, "multipart/form-data", auth c⟩

/-- The import configuration struct (`ImportSubscribersConfig`): mode,
CSV delimiter, target list IDs, overwrite flag. -/
structure ImportSubscribersConfig where
  mode : String
  delimeter : String
  lists : List Int
  overwrite : Bool

/-- Model of `json.Marshal(params.Config)` in `ImportSubscribers`: the
fields in declaration order under their json tags. -/
def ImportSubscribersConfig.marshal (cfg : ImportSubscribersConfig) : String :=
  printJsonD 4
    (.obj
      [("mode", .str cfg.mode), ("delim", .str cfg.delimeter),
        ("lists", .arr (cfg.lists.map Json.num)), ("overwrite", .bool cfg.overwrite)])

/-- Request phase of `ImportSubscribers`: a multipart call with the string
field `params` holding the marshalled config and the file stream under the
field `file` (its contents modelled as a string). -/
def importSubscribersRequest (c : ClientConfig) (cfg : ImportSubscribersConfig)
    (file : String) : Request :=
  multipartRequest c ("/api/import/subscribers") [("params", cfg.marshal)] [("file", file)]

/-- The failure produced for a non-success response: the envelope's message
when the body decodes as the error envelope, the decoder's own error
otherwise. -/
def envelopeFailure (resp : HttpResponse) : GoError :=
  match (Json.parse resp.body).bind decodeErrorResponse with
  | none => .jsonDecodeError
  | some msg => .errorsNew msg

/-- Decode phase of `GetSubscriber` (endpoint file, lines 88-95):
`request[Response[*Subscriber]]` followed by `return resp.Data` — the
payload is taken from under the `data` key.  The decoding of the
`Subscriber` struct itself is abstracted as `dec` with zero value `zero`;
the claim under verification concerns only the envelope shape. -/
def getSubscriberResult (zero : α) (dec : Json → Option α) (resp : HttpResponse) :
    Except GoError α :=
  match decode (decodeResponseJson zero dec) resp with
  | .error e => .error e
  | .ok r => .ok r.data

/-- Decode phase of `ExportSubscriber` (lines 124-131):
`request[*ExportSubscriberResponse]` followed by dereferencing — the body
is decoded bare, with no `data`-key unwrapping. -/
def exportSubscriberResult (dec : Json → Option α) (resp : HttpResponse) :
    Except GoError α :=
  decode dec resp

/-- Decode phase of `GetPublicLists`: `request[[]PublicListEntry]` followed
by dereferencing — the body is decoded bare as an array. -/
def getPublicListsResult (dec : Json → Option α) (resp : HttpResponse) :
    Except GoError (List α) :=
  decode (decodeJsonList dec) resp

/-- Decode phase of `GetCampaignPreview` (lines 725-745): on a non-200
status, decode the `\x7bmessage\x7d` error envelope inline (the same logic
as `decode`); on 200, read the whole body and return it as text. -/
def getCampaignPreviewResult (resp : HttpResponse) : Except GoError String :=
  if resp.statusCode ≠ 200 then
    match Json.parse resp.body with
    | none => .error .jsonDecodeError
    | some j =>
      match decodeErrorResponse j with
      | none => .error .jsonDecodeError
      | some msg => .error (.errorsNew msg)
  else .ok resp.body

/-- Decode phase of `GetTemplatePreview` (lines 1022-1042): textually the
same inline logic as `GetCampaignPreview`. -/
def getTemplatePreviewResult (resp : HttpResponse) : Except GoError String :=
  if resp.statusCode ≠ 200 then
    match Json.parse resp.body with
    | none => .error .jsonDecodeError
    | some j =>
      match decodeErrorResponse j with
      | none => .error .jsonDecodeError
      | some msg => .error (.errorsNew msg)
  else .ok resp.body

/-- Decode-and-project phase of `CreateTemplate` (endpoint file, lines
1058-1065): decode the `\x7bdata: []Template\x7d` envelope, then take the
address of element 0 of the slice (`&resp.Data[0]`) without a bounds
check.  The `Template` element decoding is abstracted as `dec`; the outer
`Option` is `none` exactly when the index expression panics at runtime
(empty `data` array). -/
def createTemplateResult (dec : Json → Option α) (resp : HttpResponse) :
    Option (Except GoError α) :=
  match decode (decodeResponseJson [] (decodeJsonList dec)) resp with
  | .error e => some (.error e)
  | .ok r =>
    match r.data.head? with
    | none => none
    | some t => some (.ok t)

/-- Decode-and-project phase of `UpdateTemplate` (lines 1068-1075): the
same unchecked `&resp.Data[0]` projection. -/
def updateTemplateResult (dec : Json → Option α) (resp : HttpResponse) :
    Option (Except GoError α) :=
  match decode (decodeResponseJson [] (decodeJsonList dec)) resp with
  | .error e => some (.error e)
  | .ok r =>
    match r.data.head? with
    | none => none
    | some t => some (.ok t)

/-- Parameters of `CreateTemplate` (endpoint file, lines 1044-1055). -/
structure CreateTemplateParams where
  name : String
  type : String
  subject : String
  body : String
  bodySource : String

/-- Request phase of `CreateTemplate` (lines 1057-1060): the call passes
`nil` as the data object to the transport — `params` is never consulted. -/
def createTemplateRequest (c : ClientConfig) (params : CreateTemplateParams) : Request :=
  doRequest c ("POST") ("/api/templates") none

/-- One two-byte UTF-8 sequence: the continuation byte after lead `b0`. -/
def utf8Cont1 (b0 : Nat) : List Nat → Option (Char × List Nat)
  | b1 :: rest =>
    if 128 ≤ b1 ∧ b1 < 192 then
      some (Char.ofNat ((b0 - 192) * 64 + (b1 - 128)), rest)
    else none
  | [] => none

/-- One three-byte UTF-8 sequence: the continuation bytes after lead `b0`. -/
def utf8Cont2 (b0 : Nat) : List Nat → Option (Char × List Nat)
  | b1 :: b2 :: rest =>
    if (128 ≤ b1 ∧ b1 < 192) ∧ 128 ≤ b2 ∧ b2 < 192 then
      some (Char.ofNat ((b0 - 224) * 4096 + (b1 - 128) * 64 + (b2 - 128)), rest)
    else none
  | _ => none

/-- One four-byte UTF-8 sequence: the continuation bytes after lead `b0`. -/
def utf8Cont3 (b0 : Nat) : List Nat → Option (Char × List Nat)
  | b1 :: b2 :: b3 :: rest =>
    if (128 ≤ b1 ∧ b1 < 192) ∧ (128 ≤ b2 ∧ b2 < 192) ∧ 128 ≤ b3 ∧ b3 < 192 then
      some
        (Char.ofNat ((b0 - 240) * 262144 + (b1 - 128) * 4096 + (b2 - 128) * 64 + (b3 - 128)),
          rest)
    else none
  | _ => none

/-- Decode one UTF-8 encoded character from the front of a byte sequence,
returning it with the remaining bytes. -/
def utf8Step : List Nat → Option (Char × List Nat)
  | [] => none
  | b0 :: rest =>
    if b0 < 128 then some (Char.ofNat b0, rest)
    else if b0 < 192 then none
    else if b0 < 224 then utf8Cont1 b0 rest
    else if b0 < 240 then utf8Cont2 b0 rest
    else if b0 < 248 then utf8Cont3 b0 rest
    else none

/-- Fuelled UTF-8 decoding loop; each step consumes at least one byte, so
fuel equal to the byte count suffices. -/
def utf8DecodeF : Nat → List Nat → Option (List Char)
  | _, [] => some []
  | 0, _ :: _ => none
  | fuel + 1, b :: bs =>
    (utf8Step (b :: bs)).bind (fun p => (utf8DecodeF fuel p.2).map (p.1 :: ·))

/-- UTF-8 decoding of a byte sequence back into characters (used by the
unescaping direction of the query round-trip). -/
def utf8Decode (bs : List Nat) : Option (List Char) :=
  utf8DecodeF bs.length bs

/-- Value of a hexadecimal digit (either case, as `net/url` accepts). -/
def hexDigitVal (c : Char) : Option Nat :=
  if 48 ≤ c.toNat ∧ c.toNat ≤ 57 then some (c.toNat - 48)
  else if 65 ≤ c.toNat ∧ c.toNat ≤ 70 then some (c.toNat - 55)
  else if 97 ≤ c.toNat ∧ c.toNat ≤ 102 then some (c.toNat - 87)
  else none

/-- Byte recovery of `net/url`'s query unescaping: `%XX` stands for a
byte, `+` for a space, any other character for its own UTF-8 bytes. -/
def unescapeBytes : List Char → Option (List Nat)
  | [] => some []
  | c :: rest =>
    if c = '+' then (unescapeBytes rest).map (32 :: ·)
    else if c = '%' then
      match rest with
      | h :: l :: rest2 =>
        (hexDigitVal h).bind (fun hh =>
          (hexDigitVal l).bind (fun ll =>
            (unescapeBytes rest2).map ((16 * hh + ll) :: ·)))
      | _ => none
    else (unescapeBytes rest).map (fun bs => utf8Encode c ++ bs)

/-- Model of `net/url.QueryUnescape` (query mode). -/
def queryUnescape (cs : List Char) : Option String :=
  (unescapeBytes cs).bind (fun bs => (utf8Decode bs).map String.mk)

/-- Prepend a character to the first piece of a split. -/
def consHead (c : Char) : List (List Char) → List (List Char)
  | [] => [[c]]
  | s :: ss => (c :: s) :: ss

/-- Split a query string at `&`, as `url.ParseQuery` cuts it. -/
def splitAmp : List Char → List (List Char)
  | [] => [[]]
  | c :: rest =>
    if c = '&' then [] :: splitAmp rest
    else consHead c (splitAmp rest)

/-- Cut a segment at the first `=`; a segment without `=` keeps an empty
value, as `strings.Cut` leaves it. -/
def cutEq : List Char → (List Char × List Char)
  | [] => ([], [])
  | c :: rest =>
    if c = '=' then ([], rest)
    else
      let p := cutEq rest
      (c :: p.1, p.2)

/-- One segment of a query string: unescaped key and value. -/
def parseSegment (seg : List Char) : Option (String × String) :=
  let p := cutEq seg
  (queryUnescape p.1).bind (fun k => (queryUnescape p.2).map (fun v => (k, v)))

/-- Model of `url.ParseQuery`: split on `&`, skip empty segments, cut each
segment at the first `=`, unescape both sides.  Go returns the pairs it
could parse together with the first error; the model returns `none` on any
error — the round-trip property concerns the success path. -/
def parseQuery (s : String) : Option (List (String × String)) :=
  ((splitAmp s.data).filter (fun seg => seg ≠ [])).mapM parseSegment

/-- Accumulating decimal parse; fails on a non-digit. -/
def parseNatAcc (acc : Nat) : List Char → Option Nat
  | [] => some acc
  | c :: rest =>
    if c.isDigit then parseNatAcc (acc * 10 + (c.toNat - 48)) rest else none

/-- A non-empty all-digit decimal numeral. -/
def parseDecimalNat : List Char → Option Nat
  | [] => none
  | cs => parseNatAcc 0 cs

/-- Model of `strconv.Atoi`-style integer parsing, for the decode direction
of the query round-trip. -/
def parseGoInt (s : String) : Option Int :=
  match s.data with
  | [] => none
  | c :: rest =>
    if c = '-' then (parseDecimalNat rest).map (fun n => -(n : Int))
    else (parseDecimalNat (c :: rest)).map (fun n => (n : Int))

/-- `GetSubscribersParams` (endpoint file, lines 15-30): the url-tagged
parameter struct for listing subscribers, the representative parameter
object of this development (string, int and int-slice fields). -/
structure GetSubscribersParams where
  query : String
  listID : List Int
  subscriptionStatus : String
  orderBy : String
  order : String
  page : Int
  perPage : Int

/-- Model of `query.Values` (go-querystring) on `GetSubscribersParams`:
one pair per field in declaration order under the field's `url` tag; the
slice field repeats its key once per element.  No tag carries `omitempty`,
so scalar fields are emitted even when zero-valued, while a slice with
zero elements contributes no pairs. -/
def GetSubscribersParams.queryPairs (p : GetSubscribersParams) : List (String × String) :=
  ("query", p.query) ::
    (p.listID.map (fun i => ("list_id", intToString i)) ++
      [("subscription_status", p.subscriptionStatus), ("order_by", p.orderBy),
        ("order", p.order), ("page", intToString p.page),
        ("per_page", intToString p.perPage)])

/-- The encoded query string `do` appends for a `GetSubscribersParams`
value. -/
def GetSubscribersParams.encoded (p : GetSubscribersParams) : String :=
  encodeValues p.queryPairs

/-- Modelled from the spec: the decoding direction of the query round-trip
(spec §8).  The repository contains no query-string decoder, so, following
the spec's wording, decoding parses the query string and reads each field
back from its named key — the first stored value for scalar fields, all
stored values in order for the slice field — parsing integer fields from
their decimal form. -/
def decodeGetSubscribersParams (s : String) : Option GetSubscribersParams :=
  (parseQuery s).bind (fun pairs =>
    ((valuesOf "query" pairs).head?).bind (fun query =>
      ((valuesOf "list_id" pairs).mapM parseGoInt).bind (fun listID =>
        ((valuesOf "subscription_status" pairs).head?).bind (fun status =>
          ((valuesOf "order_by" pairs).head?).bind (fun orderBy =>
            ((valuesOf "order" pairs).head?).bind (fun order =>
              ((valuesOf "page" pairs).head?.bind parseGoInt).bind (fun page =>
                ((valuesOf "per_page" pairs).head?.bind parseGoInt).map (fun perPage =>
                  ⟨query, listID, status, orderBy, order, page, perPage⟩))))))))

/-- `strconv.FormatBool`, how go-querystring renders a `bool` field with
no `int` option on its tag. -/
def boolToString (b : Bool) : String :=
  if b then "true" else "false"

/-- Reading back `strconv.FormatBool`'s two outputs. -/
def parseGoBool (s : String) : Option Bool :=
  if s = "true" then some true
  else if s = "false" then some false
  else none

/-- `GetCampaignParams` (endpoint file, lines 673-690): the url-tagged
parameter struct for listing campaigns — the representative parameter
object with string-slice fields (`status`, `tags`) and a `bool` field
(`no_body`). -/
structure GetCampaignParams where
  order : String
  orderBy : String
  query : String
  status : List String
  tags : List String
  page : Int
  perPage : Int
  noBody : Bool
deriving DecidableEq

/-- Model of `query.Values` (go-querystring) on `GetCampaignParams`: one
pair per field in declaration order under the field's `url` tag; the two
slice fields repeat their key once per element, the `bool` field renders
via `strconv.FormatBool`.  No tag carries `omitempty`. -/
def GetCampaignParams.queryPairs (p : GetCampaignParams) : List (String × String) :=
  ("order", p.order) :: ("order_by", p.orderBy) :: ("query", p.query) ::
    (p.status.map (fun s => ("status", s)) ++
      (p.tags.map (fun t => ("tags", t)) ++
        [("page", intToString p.page), ("per_page", intToString p.perPage),
          ("no_body", boolToString p.noBody)]))

/-- The encoded query string `do` appends for a `GetCampaignParams`
value. -/
def GetCampaignParams.encoded (p : GetCampaignParams) : String :=
  encodeValues p.queryPairs

/-- Modelled from the spec: the decoding direction of the query
round-trip (spec §8) for `GetCampaignParams` — the first stored value for
each scalar key, all stored values in order for the two slice keys,
integers from their decimal form and the bool from `FormatBool`'s
rendering. -/
def decodeGetCampaignParams (s : String) : Option GetCampaignParams :=
  (parseQuery s).bind (fun pairs =>
    ((valuesOf "order" pairs).head?).bind (fun order =>
      ((valuesOf "order_by" pairs).head?).bind (fun orderBy =>
        ((valuesOf "query" pairs).head?).bind (fun query =>
          ((valuesOf "page" pairs).head?.bind parseGoInt).bind (fun page =>
            ((valuesOf "per_page" pairs).head?.bind parseGoInt).bind (fun perPage =>
              ((valuesOf "no_body" pairs).head?.bind parseGoBool).map (fun noBody =>
                ⟨order, orderBy, query, valuesOf "status" pairs, valuesOf "tags" pairs,
                  page, perPage, noBody⟩)))))))

/-- A `time.Time` field as query encoding observes it: go-querystring
renders such a field by `t.Format(time.RFC3339)` (no `url` option on the
tags here alters that), so the model carries exactly that rendering. -/
structure GoTime where
  rfc3339 : String
deriving DecidableEq

/-- `CampaignStatType` (endpoint file, line 761): a named string type. -/
abbrev CampaignStatType := String

/-- `GetCampaignViewsParams` (endpoint file, lines 769-779): campaign ids
under tag `id`, an analytics `Type` under tag `url:"-"`, and a date range
under tags `from` and `to`.  The Go fields `From`/`To` are named
`fromTime`/`toTime` (`from` is reserved in Lean). -/
structure GetCampaignViewsParams where
  ids : List Int
  type : CampaignStatType
  fromTime : GoTime
  toTime : GoTime
deriving DecidableEq

/-- Model of `query.Values` on `GetCampaignViewsParams`: the slice field
repeats the `id` key once per element and the two times render as
RFC3339; the `Type` field's tag is `url:"-"`, under which go-querystring
skips the field entirely, so no pair carries it. -/
def GetCampaignViewsParams.queryPairs (p : GetCampaignViewsParams) : List (String × String) :=
  p.ids.map (fun i => ("id", intToString i)) ++
    [("from", p.fromTime.rfc3339), ("to", p.toTime.rfc3339)]

/-- The encoded query string `do` appends for a `GetCampaignViewsParams`
value. -/
def GetCampaignViewsParams.encoded (p : GetCampaignViewsParams) : String :=
  encodeValues p.queryPairs

/-- Modelled from the spec: the decoding direction of the query
round-trip (spec §8) for `GetCampaignViewsParams`.  The `Type` field is
never encoded (tag `url:"-"`), so no decoder can read it back: this one
yields the field's zero value, the empty string. -/
def decodeGetCampaignViewsParams (s : String) : Option GetCampaignViewsParams :=
  (parseQuery s).bind (fun pairs =>
    ((valuesOf "id" pairs).mapM parseGoInt).bind (fun ids =>
      ((valuesOf "from" pairs).head?).bind (fun fromT =>
        ((valuesOf "to" pairs).head?).map (fun toT =>
          ⟨ids, "", ⟨fromT⟩, ⟨toT⟩⟩))))

/-- C1: for every HTTP response whose status code is not 200 the envelope
decoder fails: no payload is ever returned; if the body unmarshals as the
error envelope with message `msg`, the failure is `errors.New msg` with
exactly that description; and if the error body itself cannot be decoded,
the failure is the underlying decode error instead. -/
theorem decode_non_ok_uses_error_envelope {α : Type} (dec : Json → Option α)
    (resp : HttpResponse) (h : resp.statusCode ≠ 200) :
    (∀ a : α, decode dec resp ≠ .ok a) ∧
    (∀ msg, (Json.parse resp.body).bind decodeErrorResponse = some msg →
      decode dec resp = .error (.errorsNew msg)) ∧
    ((Json.parse resp.body).bind decodeErrorResponse = none →
      decode dec resp = .error .jsonDecodeError) := by
  unfold decode
  rw [if_pos h]
  cases hp : Json.parse resp.body with
  | none => simp [hp]
  | some j =>
    cases he : decodeErrorResponse j with
    | none => simp [he]
    | some msg => simp [he]

/-- Witness for C1: a status-400 response with body
`\x7b"message": "invalid email"\x7d` fails with description
`invalid email`, for an arbitrary payload decoder. -/
theorem decode_non_ok_uses_error_envelope_witness :
    decode (fun j => some j) ⟨400, "\x7b\"message\": \"invalid email\"\x7d"⟩ =
      .error (.errorsNew ("invalid email")) :=
  (decode_non_ok_uses_error_envelope (fun j => some j)
    ⟨400, "\x7b\"message\": \"invalid email\"\x7d"⟩ (by decide)).2.1
    ("invalid email") (by rfl)

/-- C2: for every HTTP response with status 200 the envelope decoder never
takes the error-envelope path (no protocol error is produced): a body that
is not JSON fails with the decode error, and a body parsing to `j` yields
the payload decoder's result on `j` — the payload on success, the decode
error on shape mismatch. -/
theorem decode_ok_decodes_result_shape {α : Type} (dec : Json → Option α)
    (resp : HttpResponse) (h : resp.statusCode = 200) :
    (∀ msg, decode dec resp ≠ .error (.errorsNew msg)) ∧
    (Json.parse resp.body = none → decode dec resp = .error .jsonDecodeError) ∧
    (∀ j, Json.parse resp.body = some j →
      decode dec resp =
        match dec j with
        | none => .error .jsonDecodeError
        | some a => .ok a) := by
  unfold decode
  rw [if_neg (by simp [h])]
  cases hp : Json.parse resp.body with
  | none => simp [hp]
  | some j =>
    cases hd : dec j with
    | none => simp [hd]
    | some a => simp [hd]

/-- Witness for C2: a status-200 response with the non-JSON body `not json`
fails with the decode error, not a protocol error. -/
theorem decode_ok_decodes_result_shape_witness :
    decode (fun j => some j) ⟨200, "not json"⟩ = .error .jsonDecodeError :=
  (decode_ok_decodes_result_shape (fun j => some j) ⟨200, "not json"⟩ rfl).2.1 (by rfl)

/-- C3: a JSON-serialized request body is attached exactly when the method
is POST or PUT and the data object is non-nil — in which case it is the
serialized data object — and GET/DELETE requests carry an empty body even
when a non-nil parameter object was supplied for query encoding. -/
theorem doRequest_body_condition (c : ClientConfig) (method path : String)
    (data : Option GoValue) :
    ((doRequest c method path data).body ≠ .empty ↔
      ((method = "POST" ∨ method = "PUT") ∧ data ≠ none)) ∧
    (∀ d, (method = "POST" ∨ method = "PUT") → data = some d →
      (doRequest c method path data).body = .jsonText (d.jsonText ++ "\n")) ∧
    ((method = "GET" ∨ method = "DELETE") → (doRequest c method path data).body = .empty) := by
  have hbody :
      (doRequest c method path data).body =
        if (method = "POST" ∨ method = "PUT") ∧ data.isSome then
          match data with
          | some d => RequestBody.jsonText (d.jsonText ++ "\n")
          | none => RequestBody.empty
        else .empty := rfl
  refine ⟨?_, ?_, ?_⟩
  · rw [hbody]
    by_cases hm : method = "POST" ∨ method = "PUT"
    · cases data with
      | none => simp [hm]
      | some d => simp [hm]
    · cases data with
      | none => simp [hm]
      | some d => simp [hm]
  · intro d hm hd
    subst hd
    rw [hbody]
    simp [hm]
  · intro hm
    rw [hbody]
    have hnot : ¬ (method = "POST" ∨ method = "PUT") := by
      rcases hm with h | h <;> subst h <;> simp
    simp [hnot]

/-- Witness for C3: a GET request with a non-nil parameter object still
carries an empty body. -/
theorem doRequest_body_condition_witness :
    (doRequest ⟨"http://example.test", "user", "tok"⟩ ("GET") ("/api/subscribers")
        (some ⟨[("page", "0")], "\x7b\x7d"⟩)).body = .empty :=
  (doRequest_body_condition ⟨"http://example.test", "user", "tok"⟩ ("GET")
    ("/api/subscribers") (some ⟨[("page", "0")], "\x7b\x7d"⟩)).2.2 (Or.inl rfl)

/-- C6: a multipart call over a string-field list and a file-stream list
builds a single multipart/form-data document with one file part per stream
entry (under its field name) and one plain field per string entry; in
particular `ImportSubscribers` produces a part named `params` holding the
JSON-serialized import configuration and a file part named `file` holding
the supplied content. -/
theorem multipart_form_parts (c : ClientConfig) (path : String)
    (fields files : List (String × String)) (cfg : ImportSubscribersConfig)
    (file : String) :
    ((multipartRequest c path fields files).body =
      .multipartForm
        (files.map (fun kv => FormPart.mk kv.1 (some kv.1) kv.2) ++
          fields.map (fun kv => FormPart.mk kv.1 none kv.2))) ∧
    ((multipartRequest c path fields files).contentType = "multipart/form-data") ∧
    (FormPart.mk ("params") none cfg.marshal ∈ (importSubscribersRequest c cfg file).body.parts) ∧
    (FormPart.mk ("file") (some ("file")) file ∈ (importSubscribersRequest c cfg file).body.parts) := by
  refine ⟨rfl, rfl, ?_, ?_⟩ <;>
    simp [importSubscribersRequest, multipartRequest, RequestBody.parts]

/-- Sample evaluation for C6: the marshalled import configuration placed in
the `params` part is the JSON document of the config struct. -/
theorem importSubscribers_marshal_sample :
    ImportSubscribersConfig.marshal ⟨"subscribe", ",", [1, 2], false⟩ =
      "\x7b\"mode\":\"subscribe\",\"delim\":\",\",\"lists\":[1,2],\"overwrite\":false\x7d" := by
  rfl

/-- Evaluation of `decode` on a success status: the error-envelope branch
is not taken; the result is the payload decoder's verdict on the parsed
body. -/
theorem decode_eval_ok {α : Type} (dec : Json → Option α) (resp : HttpResponse)
    (h : resp.statusCode = 200) :
    decode dec resp =
      match Json.parse resp.body with
      | none => .error .jsonDecodeError
      | some j =>
        match dec j with
        | none => .error .jsonDecodeError
        | some a => .ok a := by
  unfold decode
  rw [if_neg (by simp [h])]
  rfl

/-- Evaluation of `decode` on a non-success status: the error envelope is
decoded and surfaced. -/
theorem decode_eval_non_ok {α : Type} (dec : Json → Option α) (resp : HttpResponse)
    (h : resp.statusCode ≠ 200) :
    decode dec resp = .error (envelopeFailure resp) := by
  unfold decode envelopeFailure
  rw [if_pos h]
  cases hp : Json.parse resp.body with
  | none => simp
  | some j => cases he : decodeErrorResponse j <;> simp [hp, he]

/-- Evaluation of `decode` when the body parses and the payload decoder
succeeds. -/
theorem decode_eval_ok_some {α : Type} (dec : Json → Option α) (resp : HttpResponse)
    (h : resp.statusCode = 200) {j : Json} {a : α}
    (hp : Json.parse resp.body = some j) (hd : dec j = some a) :
    decode dec resp = .ok a := by
  rw [decode_eval_ok dec resp h]
  simp [hp, hd]

/-- Traversing a list with the identity effect returns the list. -/
theorem mapM_some_id {α : Type} (xs : List α) :
    xs.mapM (fun x => (some x : Option α)) = some xs := by
  induction xs with
  | nil => rfl
  | cons x xs ih => rw [List.mapM_cons, ih]; rfl

/-- C5: the envelope shape is fixed statically per endpoint: on a 200
response, `GetSubscriber` decodes a `\x7bdata: T\x7d` wrapper and returns
the value under the `data` key, while `ExportSubscriber` and
`GetPublicLists` decode the body bare — the decoded value itself is the
payload, with no `data`-key unwrapping (shown with the identity payload
decoder). -/
theorem envelope_shape_fixed_per_endpoint (resp : HttpResponse)
    (h : resp.statusCode = 200) :
    (∀ j, Json.parse resp.body = some j →
      exportSubscriberResult (fun x => some x) resp = .ok j) ∧
    (∀ xs, Json.parse resp.body = some (.arr xs) →
      getPublicListsResult (fun x => some x) resp = .ok xs) ∧
    (∀ v, Json.parse resp.body = some (.obj [("data", v)]) →
      getSubscriberResult Json.null (fun x => some x) resp = .ok v) := by
  refine ⟨?_, ?_, ?_⟩
  · intro j hp
    exact decode_eval_ok_some _ _ h hp rfl
  · intro xs hp
    exact decode_eval_ok_some _ _ h hp (mapM_some_id xs)
  · intro v hp
    have hd : decode (decodeResponseJson Json.null (fun x => some x)) resp = .ok ⟨v⟩ :=
      decode_eval_ok_some _ _ h hp rfl
    unfold getSubscriberResult
    rw [hd]

/-- Witness for C5: on a 200 response with body
`\x7b"data": \x7b"id": 7\x7d\x7d`, `GetSubscriber` returns the object
under `data`, while `ExportSubscriber` on the same body returns the whole
envelope object untouched. -/
theorem envelope_shape_fixed_per_endpoint_witness :
    getSubscriberResult Json.null (fun x => some x)
        ⟨200, "\x7b\"data\": \x7b\"id\": 7\x7d\x7d"⟩ =
      .ok (.obj [("id", .num 7)]) ∧
    exportSubscriberResult (fun x => some x)
        ⟨200, "\x7b\"data\": \x7b\"id\": 7\x7d\x7d"⟩ =
      .ok (.obj [("data", .obj [("id", .num 7)])]) :=
  ⟨(envelope_shape_fixed_per_endpoint ⟨200, "\x7b\"data\": \x7b\"id\": 7\x7d\x7d"⟩ rfl).2.2
      (.obj [("id", .num 7)]) (by rfl),
    (envelope_shape_fixed_per_endpoint ⟨200, "\x7b\"data\": \x7b\"id\": 7\x7d\x7d"⟩ rfl).1
      (.obj [("data", .obj [("id", .num 7)])]) (by rfl)⟩

/-- C7: the preview calls fail on non-200 by decoding the error envelope
exactly as the structured decoder does — they produce the same error value
as `decode` and never a payload — and on 200 they return the entire body
as text, unmodified, with no JSON parsing attempted. -/
theorem preview_calls_return_raw_text (resp : HttpResponse) :
    (resp.statusCode ≠ 200 →
      (∀ s, getCampaignPreviewResult resp ≠ .ok s) ∧
      (∀ (α : Type) (dec : Json → Option α) (e : GoError),
        decode dec resp = .error e →
          getCampaignPreviewResult resp = .error e ∧
          getTemplatePreviewResult resp = .error e)) ∧
    (resp.statusCode = 200 →
      getCampaignPreviewResult resp = .ok resp.body ∧
      getTemplatePreviewResult resp = .ok resp.body) := by
  constructor
  · intro h
    have hc : getCampaignPreviewResult resp = .error (envelopeFailure resp) := by
      unfold getCampaignPreviewResult envelopeFailure
      rw [if_pos h]
      cases hp : Json.parse resp.body with
      | none => simp
      | some j => cases he : decodeErrorResponse j <;> simp [hp, he]
    have ht : getTemplatePreviewResult resp = .error (envelopeFailure resp) := by
      unfold getTemplatePreviewResult envelopeFailure
      rw [if_pos h]
      cases hp : Json.parse resp.body with
      | none => simp
      | some j => cases he : decodeErrorResponse j <;> simp [hp, he]
    constructor
    · intro s
      rw [hc]
      simp
    · intro α dec e hd
      rw [decode_eval_non_ok dec resp h] at hd
      have he : envelopeFailure resp = e := by injection hd
      rw [hc, ht, he]
      exact ⟨rfl, rfl⟩
  · intro h
    constructor
    · unfold getCampaignPreviewResult
      rw [if_neg (by simp [h])]
    · unfold getTemplatePreviewResult
      rw [if_neg (by simp [h])]

/-- Witness for C7: a 404 preview response with an error-envelope body
fails with that message (matching the structured decoder), and a 200
preview response with a non-JSON HTML body is returned as-is. -/
theorem preview_calls_return_raw_text_witness :
    getCampaignPreviewResult ⟨404, "\x7b\"message\": \"no campaign\"\x7d"⟩ =
      .error (.errorsNew ("no campaign")) ∧
    getTemplatePreviewResult ⟨200, "<html>preview</html>"⟩ =
      .ok ("<html>preview</html>") :=
  ⟨(((preview_calls_return_raw_text ⟨404, "\x7b\"message\": \"no campaign\"\x7d"⟩).1
      (by decide)).2 Json (fun j => some j) (.errorsNew ("no campaign")) (by rfl)).1,
    ((preview_calls_return_raw_text ⟨200, "<html>preview</html>"⟩).2 rfl).2⟩

/-- C9: `CreateTemplate` and `UpdateTemplate` access element 0 of the
decoded `data` array without an emptiness check: any success response with
body `\x7b"data": []\x7d` makes the access out of bounds (a runtime panic,
the `none` outcome); the projection is safe exactly under the precondition
that the decoded array is non-empty. -/
theorem createTemplate_unchecked_index {α : Type} (dec : Json → Option α)
    (resp : HttpResponse) :
    (resp.statusCode = 200 → Json.parse resp.body = some (.obj [("data", .arr [])]) →
      createTemplateResult dec resp = none ∧ updateTemplateResult dec resp = none) ∧
    (∀ r : Response (List α),
      decode (decodeResponseJson [] (decodeJsonList dec)) resp = .ok r → r.data ≠ [] →
      ∃ t, r.data.head? = some t ∧
        createTemplateResult dec resp = some (.ok t) ∧
        updateTemplateResult dec resp = some (.ok t)) := by
  constructor
  · intro h200 hp
    have hd : decode (decodeResponseJson [] (decodeJsonList dec)) resp =
        .ok (⟨[]⟩ : Response (List α)) :=
      decode_eval_ok_some _ _ h200 hp rfl
    unfold createTemplateResult updateTemplateResult
    rw [hd]
    exact ⟨rfl, rfl⟩
  · intro r hd hne
    obtain ⟨t, ts, hts⟩ : ∃ t ts, r.data = t :: ts := by
      cases hr : r.data with
      | nil => exact absurd hr hne
      | cons t ts => exact ⟨t, ts, rfl⟩
    refine ⟨t, by rw [hts]; rfl, ?_, ?_⟩
    · unfold createTemplateResult
      rw [hd]
      simp [hts]
    · unfold updateTemplateResult
      rw [hd]
      simp [hts]

/-- Witness for C9: a 200 response with body `\x7b"data": []\x7d` makes
both template projections hit the out-of-bounds access (the panic
outcome). -/
theorem createTemplate_unchecked_index_witness :
    createTemplateResult (fun j => some j) ⟨200, "\x7b\"data\": []\x7d"⟩ = none ∧
    updateTemplateResult (fun j => some j) ⟨200, "\x7b\"data\": []\x7d"⟩ = none :=
  (createTemplate_unchecked_index (fun j => some j) ⟨200, "\x7b\"data\": []\x7d"⟩).1
    rfl (by rfl)

/-- C10: `CreateTemplate` ignores its params argument entirely: any two
parameter values produce the identical HTTP request, whose body is empty
and whose URL carries no query string derived from the supplied template
fields. -/
theorem createTemplateRequest_ignores_params (c : ClientConfig)
    (p q : CreateTemplateParams) :
    createTemplateRequest c p = createTemplateRequest c q ∧
    (createTemplateRequest c p).body = .empty ∧
    (createTemplateRequest c p).url = joinPath c.baseURL ("/api/templates") :=
  ⟨rfl, rfl, rfl⟩

/-- Decimal digit characters evaluate as expected. -/
theorem digitChar_eval : ∀ d, d < 10 →
    (Char.ofNat (48 + d)).isDigit = true ∧ (Char.ofNat (48 + d)).toNat = 48 + d := by
  decide

/-- Every character emitted by `natToDigits` is a decimal digit. -/
theorem natToDigits_shape (fuel : Nat) : ∀ n c, c ∈ natToDigits fuel n →
    ∃ d, d < 10 ∧ c = Char.ofNat (48 + d) := by
  induction fuel with
  | zero => intro n c hc; simp [natToDigits] at hc
  | succ fuel ih =>
    intro n c hc
    unfold natToDigits at hc
    by_cases h : n < 10
    · rw [if_pos h] at hc
      simp at hc
      exact ⟨n, h, hc⟩
    · rw [if_neg h] at hc
      rcases List.mem_append.1 hc with h1 | h2
      · exact ih (n / 10) c h1
      · simp at h2
        exact ⟨n % 10, Nat.mod_lt _ (by omega), h2⟩

/-- `natToDigits` with positive fuel is never empty. -/
theorem natToDigits_ne_nil (fuel n : Nat) : natToDigits (fuel + 1) n ≠ [] := by
  unfold natToDigits
  by_cases h : n < 10
  · rw [if_pos h]; simp
  · rw [if_neg h]; simp

/-- Sequential composition of the accumulating decimal parse. -/
theorem parseNatAcc_append (xs ys : List Char) : ∀ acc,
    parseNatAcc acc (xs ++ ys) = (parseNatAcc acc xs).bind (fun m => parseNatAcc m ys) := by
  induction xs with
  | nil => intro acc; rfl
  | cons c xs ih =>
    intro acc
    have heq : ∀ a (l : List Char),
        parseNatAcc a (c :: l) =
          if c.isDigit then parseNatAcc (a * 10 + (c.toNat - 48)) l else none :=
      fun _ _ => rfl
    rw [List.cons_append, heq, heq]
    by_cases h : c.isDigit
    · rw [if_pos h, if_pos h, ih]
    · rw [if_neg h, if_neg h]
      rfl

/-- The accumulating parse inverts `natToDigits` when the fuel covers the
number. -/
theorem parseNatAcc_natToDigits (fuel : Nat) : ∀ n acc, n < 10 ^ fuel →
    parseNatAcc acc (natToDigits fuel n) =
      some (acc * 10 ^ (natToDigits fuel n).length + n) := by
  induction fuel with
  | zero =>
    intro n acc hn
    have : n = 0 := by simpa using hn
    subst this
    simp [natToDigits, parseNatAcc]
  | succ fuel ih =>
    intro n acc hn
    unfold natToDigits
    by_cases h : n < 10
    · rw [if_pos h]
      have hd := digitChar_eval n h
      simp [parseNatAcc, hd.1, hd.2]
    · rw [if_neg h]
      have hdiv : n / 10 < 10 ^ fuel := by
        have : n < 10 ^ (fuel + 1) := hn
        rw [pow_succ] at this
        omega
      rw [parseNatAcc_append]
      rw [ih (n / 10) acc hdiv]
      have hd := digitChar_eval (n % 10) (Nat.mod_lt _ (by omega))
      simp [parseNatAcc, hd.1, hd.2, List.length_append]
      rw [pow_succ, ← Nat.mul_assoc]
      set A := acc * 10 ^ (natToDigits fuel (n / 10)).length with hA
      omega

/-- `parseDecimalNat` inverts `natToString`'s digit list. -/
theorem parseDecimalNat_natToDigits (n : Nat) :
    parseDecimalNat (natToDigits (n + 1) n) = some n := by
  have hne := natToDigits_ne_nil n n
  have hlt : n < 10 ^ (n + 1) :=
    lt_of_lt_of_le (Nat.lt_pow_self (by norm_num) n)
      (Nat.pow_le_pow_right (by norm_num) (by omega))
  have hp := parseNatAcc_natToDigits (n + 1) n 0 hlt
  cases hcs : natToDigits (n + 1) n with
  | nil => exact absurd hcs hne
  | cons c rest =>
    show parseNatAcc 0 (c :: rest) = some n
    rw [← hcs, hp]
    simp

/-- Model of `strconv` parsing inverts the decimal formatting of an
integer. -/
theorem parseGoInt_intToString (i : Int) : parseGoInt (intToString i) = some i := by
  unfold intToString
  by_cases h : i < 0
  · rw [if_pos h]
    have hdata : ("-" ++ natToString i.natAbs).data = '-' :: (natToString i.natAbs).data := by
      rw [String.data_append]
      rfl
    unfold parseGoInt
    rw [hdata]
    simp only [List.cons.injEq]
    show (if ('-' : Char) = '-' then
        (parseDecimalNat (natToString i.natAbs).data).map (fun n => -(n : Int))
      else (parseDecimalNat ('-' :: (natToString i.natAbs).data)).map (fun n => (n : Int))) =
        some i
    rw [if_pos rfl]
    show (parseDecimalNat (natToDigits (i.natAbs + 1) i.natAbs)).map (fun n => -(n : Int)) =
      some i
    rw [parseDecimalNat_natToDigits]
    show some (-(i.natAbs : Int)) = some i
    congr 1
    omega
  · rw [if_neg h]
    cases hcs : natToDigits (i.natAbs + 1) i.natAbs with
    | nil => exact absurd hcs (natToDigits_ne_nil _ _)
    | cons c rest =>
      obtain ⟨d, hd10, hcd⟩ :=
        natToDigits_shape (i.natAbs + 1) i.natAbs c (by rw [hcs]; exact List.mem_cons_self _ _)
      have hcne : c ≠ '-' := by
        intro hcontr
        have h1 : c.toNat = 45 := by rw [hcontr]; rfl
        rw [hcd, (digitChar_eval d hd10).2] at h1
        omega
      unfold parseGoInt
      show (match (natToString i.natAbs).data with
        | [] => none
        | c :: rest =>
          if c = '-' then (parseDecimalNat rest).map (fun n => -(n : Int))
          else (parseDecimalNat (c :: rest)).map (fun n => (n : Int))) = some i
      have hdata : (natToString i.natAbs).data = c :: rest := hcs
      rw [hdata]
      simp only [if_neg hcne]
      rw [← hcs]
      show (parseDecimalNat (natToDigits (i.natAbs + 1) i.natAbs)).map (fun n => (n : Int)) =
        some i
      rw [parseDecimalNat_natToDigits]
      show some ((i.natAbs : Int)) = some i
      congr 1
      omega

/-- Every character's code point is below the Unicode bound. -/
theorem char_toNat_lt_unicode (c : Char) : c.toNat < 1114112 := by
  rcases c.valid with h | h
  · exact lt_trans h (by norm_num)
  · exact h.2

/-- UTF-8 encoding emits bytes. -/
theorem utf8Encode_lt_256 (c : Char) : ∀ b ∈ utf8Encode c, b < 256 := by
  have hv := char_toNat_lt_unicode c
  intro b hb
  unfold utf8Encode at hb
  by_cases h1 : c.toNat < 128
  · rw [if_pos h1] at hb
    simp at hb
    omega
  · rw [if_neg h1] at hb
    by_cases h2 : c.toNat < 2048
    · rw [if_pos h2] at hb
      simp at hb
      rcases hb with h | h <;> omega
    · rw [if_neg h2] at hb
      by_cases h3 : c.toNat < 65536
      · rw [if_pos h3] at hb
        simp at hb
        rcases hb with h | h | h <;> omega
      · rw [if_neg h3] at hb
        simp at hb
        rcases hb with h | h | h | h <;> omega

/-- Evaluation of `utf8Step` on a cons list. -/
theorem utf8Step_cons (b0 : Nat) (rest : List Nat) :
    utf8Step (b0 :: rest) =
      if b0 < 128 then some (Char.ofNat b0, rest)
      else if b0 < 192 then none
      else if b0 < 224 then utf8Cont1 b0 rest
      else if b0 < 240 then utf8Cont2 b0 rest
      else if b0 < 248 then utf8Cont3 b0 rest
      else none := rfl

/-- Evaluation of `utf8Cont1` on a cons list. -/
theorem utf8Cont1_cons (b0 b1 : Nat) (rest : List Nat) :
    utf8Cont1 b0 (b1 :: rest) =
      if 128 ≤ b1 ∧ b1 < 192 then
        some (Char.ofNat ((b0 - 192) * 64 + (b1 - 128)), rest)
      else none := rfl

/-- Evaluation of `utf8Cont2` on two leading bytes. -/
theorem utf8Cont2_cons (b0 b1 b2 : Nat) (rest : List Nat) :
    utf8Cont2 b0 (b1 :: b2 :: rest) =
      if (128 ≤ b1 ∧ b1 < 192) ∧ 128 ≤ b2 ∧ b2 < 192 then
        some (Char.ofNat ((b0 - 224) * 4096 + (b1 - 128) * 64 + (b2 - 128)), rest)
      else none := rfl

/-- Evaluation of `utf8Cont3` on three leading bytes. -/
theorem utf8Cont3_cons (b0 b1 b2 b3 : Nat) (rest : List Nat) :
    utf8Cont3 b0 (b1 :: b2 :: b3 :: rest) =
      if (128 ≤ b1 ∧ b1 < 192) ∧ (128 ≤ b2 ∧ b2 < 192) ∧ 128 ≤ b3 ∧ b3 < 192 then
        some
          (Char.ofNat ((b0 - 240) * 262144 + (b1 - 128) * 4096 + (b2 - 128) * 64 + (b3 - 128)),
            rest)
      else none := rfl

/-- `utf8Step` consumes exactly the encoding of the leading character. -/
theorem utf8Step_encode (c : Char) (bs : List Nat) :
    utf8Step (utf8Encode c ++ bs) = some (c, bs) := by
  have hv := char_toNat_lt_unicode c
  unfold utf8Encode
  by_cases h1 : c.toNat < 128
  · rw [if_pos h1]
    show utf8Step (c.toNat :: bs) = _
    rw [utf8Step_cons, if_pos h1, Char.ofNat_toNat]
  · rw [if_neg h1]
    by_cases h2 : c.toNat < 2048
    · rw [if_pos h2]
      show utf8Step ((192 + c.toNat / 64) :: (128 + c.toNat % 64) :: bs) = _
      rw [utf8Step_cons, if_neg (by omega), if_neg (by omega), if_pos (by omega)]
      rw [utf8Cont1_cons, if_pos (by constructor <;> omega)]
      rw [show (192 + c.toNat / 64 - 192) * 64 + (128 + c.toNat % 64 - 128) = c.toNat from
        by omega]
      rw [Char.ofNat_toNat]
    · rw [if_neg h2]
      by_cases h3 : c.toNat < 65536
      · rw [if_pos h3]
        show utf8Step
            ((224 + c.toNat / 4096) :: (128 + c.toNat / 64 % 64) :: (128 + c.toNat % 64) :: bs) =
          _
        rw [utf8Step_cons, if_neg (by omega), if_neg (by omega), if_neg (by omega),
          if_pos (by omega)]
        rw [utf8Cont2_cons, if_pos (by refine ⟨⟨?_, ?_⟩, ?_, ?_⟩ <;> omega)]
        rw [show (224 + c.toNat / 4096 - 224) * 4096 + (128 + c.toNat / 64 % 64 - 128) * 64 +
            (128 + c.toNat % 64 - 128) = c.toNat from by omega]
        rw [Char.ofNat_toNat]
      · rw [if_neg h3]
        show utf8Step
            ((240 + c.toNat / 262144) :: (128 + c.toNat / 4096 % 64) ::
              (128 + c.toNat / 64 % 64) :: (128 + c.toNat % 64) :: bs) = _
        rw [utf8Step_cons, if_neg (by omega), if_neg (by omega), if_neg (by omega),
          if_neg (by omega), if_pos (by omega)]
        rw [utf8Cont3_cons, if_pos (by refine ⟨⟨?_, ?_⟩, ⟨?_, ?_⟩, ?_, ?_⟩ <;> omega)]
        rw [show (240 + c.toNat / 262144 - 240) * 262144 +
            (128 + c.toNat / 4096 % 64 - 128) * 4096 + (128 + c.toNat / 64 % 64 - 128) * 64 +
            (128 + c.toNat % 64 - 128) = c.toNat from by omega]
        rw [Char.ofNat_toNat]

/-- The encoding of a character is never empty. -/
theorem utf8Encode_ne_nil (c : Char) : utf8Encode c ≠ [] := by
  unfold utf8Encode
  by_cases h1 : c.toNat < 128
  · rw [if_pos h1]; simp
  · rw [if_neg h1]
    by_cases h2 : c.toNat < 2048
    · rw [if_pos h2]; simp
    · rw [if_neg h2]
      by_cases h3 : c.toNat < 65536
      · rw [if_pos h3]; simp
      · rw [if_neg h3]; simp

/-- The fuelled decoding loop on a cons list. -/
theorem utf8DecodeF_cons (fuel : Nat) (b : Nat) (bs : List Nat) :
    utf8DecodeF (fuel + 1) (b :: bs) =
      (utf8Step (b :: bs)).bind (fun p => (utf8DecodeF fuel p.2).map (p.1 :: ·)) := rfl

/-- The fuelled UTF-8 decoding undoes the encoding of a character list
whenever the fuel covers the byte count. -/
theorem utf8DecodeF_encode_list (cs : List Char) : ∀ fuel,
    (cs.flatMap utf8Encode).length ≤ fuel →
    utf8DecodeF fuel (cs.flatMap utf8Encode) = some cs := by
  induction cs with
  | nil => intro fuel _; cases fuel <;> rfl
  | cons c cs ih =>
    intro fuel hfuel
    rw [List.flatMap_cons] at hfuel ⊢
    obtain ⟨b, tail, henc⟩ : ∃ b tail, utf8Encode c = b :: tail := by
      cases he : utf8Encode c with
      | nil => exact absurd he (utf8Encode_ne_nil c)
      | cons b tail => exact ⟨b, tail, rfl⟩
    rw [henc] at hfuel ⊢
    cases fuel with
    | zero => simp at hfuel
    | succ fuel =>
      rw [List.cons_append, utf8DecodeF_cons, ← List.cons_append, ← henc, utf8Step_encode]
      have hlen : (cs.flatMap utf8Encode).length ≤ fuel := by
        rw [List.length_append, List.length_cons] at hfuel
        omega
      rw [Option.some_bind]
      rw [ih fuel hlen]
      rfl

/-- UTF-8 decoding undoes the encoding of a character list. -/
theorem utf8Decode_encode_list (cs : List Char) :
    utf8Decode (cs.flatMap utf8Encode) = some cs :=
  utf8DecodeF_encode_list cs _ le_rfl

/-- An unreserved character is ASCII. -/
theorem unreserved_lt_128 {c : Char} (h : isUnreservedChar c = true) : c.toNat < 128 := by
  unfold isUnreservedChar at h
  simp only [Bool.or_eq_true, Bool.and_eq_true, decide_eq_true_eq, beq_iff_eq] at h
  rcases h with ((((((h | h) | h) | h) | h) | h) | h)
  all_goals omega

/-- An unreserved character is none of the structural characters of a
query string. -/
theorem unreserved_ne {c : Char} (h : isUnreservedChar c = true) :
    c ≠ '&' ∧ c ≠ '=' ∧ c ≠ '%' ∧ c ≠ '+' := by
  refine ⟨?_, ?_, ?_, ?_⟩ <;> (intro hc; subst hc; revert h; decide)

/-- Hex digits round-trip. -/
theorem hexDigitVal_hexDigitChar : ∀ d, d < 16 → hexDigitVal (hexDigitChar d) = some d := by
  decide

/-- Hex digit characters are none of the structural characters. -/
theorem hexDigitChar_ne : ∀ d, d < 16 →
    hexDigitChar d ≠ '&' ∧ hexDigitChar d ≠ '=' := by
  decide

/-- Evaluation of `unescapeBytes` on a leading plus. -/
theorem unescapeBytes_plus (rest : List Char) :
    unescapeBytes ('+' :: rest) = (unescapeBytes rest).map (32 :: ·) := by
  rcases rest with _ | ⟨a, _ | ⟨b, r⟩⟩
  · rfl
  · rw [unescapeBytes]
    · rw [if_pos rfl]
    · intro h l rest2 hx
      simp at hx
  · rw [unescapeBytes]
    rw [if_pos rfl]

/-- Evaluation of `unescapeBytes` on a leading pass-through character. -/
theorem unescapeBytes_other {c : Char} (rest : List Char) (h1 : c ≠ '+') (h2 : c ≠ '%') :
    unescapeBytes (c :: rest) = (unescapeBytes rest).map (fun bs => utf8Encode c ++ bs) := by
  rcases rest with _ | ⟨a, _ | ⟨b, r⟩⟩
  · show (if c = '+' then (unescapeBytes []).map (32 :: ·)
      else if c = '%' then none
      else (unescapeBytes []).map (fun bs => utf8Encode c ++ bs)) = _
    rw [if_neg h1, if_neg h2]
  · rw [unescapeBytes]
    · rw [if_neg h1, if_neg h2]
    · intro h l rest2 hx
      simp at hx
  · rw [unescapeBytes]
    rw [if_neg h1, if_neg h2]

/-- Evaluation of `unescapeBytes` on a percent triple. -/
theorem unescapeBytes_percent (h l : Char) (rest : List Char) :
    unescapeBytes ('%' :: h :: l :: rest) =
      (hexDigitVal h).bind (fun hh =>
        (hexDigitVal l).bind (fun ll =>
          (unescapeBytes rest).map ((16 * hh + ll) :: ·))) := rfl

/-- Unescaping a run of percent-escaped bytes recovers them. -/
theorem unescapeBytes_hexTriples (bytes : List Nat) (hb : ∀ b ∈ bytes, b < 256)
    (rest : List Char) :
    unescapeBytes
        (bytes.flatMap (fun b => ['%', hexDigitChar (b / 16), hexDigitChar (b % 16)]) ++ rest) =
      (unescapeBytes rest).map (fun bs => bytes ++ bs) := by
  induction bytes with
  | nil => simp
  | cons b bytes ih =>
    have hb1 : b / 16 < 16 := by
      have := hb b (List.mem_cons_self b bytes)
      omega
    have hb2 : b % 16 < 16 := by omega
    simp only [List.flatMap_cons, List.cons_append, List.append_assoc, List.nil_append]
    rw [unescapeBytes_percent]
    rw [hexDigitVal_hexDigitChar _ hb1, hexDigitVal_hexDigitChar _ hb2]
    simp only [Option.some_bind]
    rw [ih (fun x hx => hb x (List.mem_cons_of_mem _ hx))]
    cases unescapeBytes rest with
    | none => rfl
    | some bs =>
      simp [List.cons_append]
      omega

/-- Unescaping a run of percent-escaped bytes recovers the bytes. -/
theorem unescapeBytes_escapeQueryChar (c : Char) (rest : List Char) :
    unescapeBytes (escapeQueryChar c ++ rest) =
      (unescapeBytes rest).map (fun bs => utf8Encode c ++ bs) := by
  unfold escapeQueryChar
  by_cases h : isUnreservedChar c
  · rw [if_pos h]
    obtain ⟨hne1, hne2, hne3, hne4⟩ := unreserved_ne h
    show unescapeBytes (c :: rest) = _
    exact unescapeBytes_other rest hne4 hne3
  · rw [if_neg h]
    by_cases h32 : c.toNat = 32
    · rw [if_pos h32]
      show unescapeBytes ('+' :: rest) = _
      rw [unescapeBytes_plus]
      have henc : utf8Encode c = [32] := by
        simp [utf8Encode, h32]
      rw [henc]
      rfl
    · rw [if_neg h32]
      exact unescapeBytes_hexTriples (utf8Encode c) (utf8Encode_lt_256 c) rest

/-- Unescaping the escape of a character list yields its UTF-8 bytes. -/
theorem unescapeBytes_escapeChars (cs : List Char) :
    unescapeBytes (escapeChars cs) = some (cs.flatMap utf8Encode) := by
  induction cs with
  | nil => rfl
  | cons c cs ih =>
    show unescapeBytes (escapeQueryChar c ++ escapeChars cs) = _
    rw [unescapeBytes_escapeQueryChar, ih]
    rfl

/-- `queryUnescape` inverts the query escaping of a string. -/
theorem queryUnescape_escapeChars (s : String) :
    queryUnescape (escapeChars s.data) = some s := by
  unfold queryUnescape
  rw [unescapeBytes_escapeChars, Option.some_bind, utf8Decode_encode_list]
  show some (String.mk s.data) = some s
  congr 1

/-- No structural character appears in the escape of a character. -/
theorem escapeQueryChar_ne (c : Char) :
    ∀ x ∈ escapeQueryChar c, x ≠ '&' ∧ x ≠ '=' := by
  intro x hx
  unfold escapeQueryChar at hx
  by_cases h : isUnreservedChar c
  · rw [if_pos h] at hx
    simp at hx
    subst hx
    obtain ⟨h1, h2, _, _⟩ := unreserved_ne h
    exact ⟨h1, h2⟩
  · rw [if_neg h] at hx
    by_cases h32 : c.toNat = 32
    · rw [if_pos h32] at hx
      simp at hx
      subst hx
      exact ⟨by decide, by decide⟩
    · rw [if_neg h32] at hx
      simp at hx
      obtain ⟨b, hb, hx⟩ := hx
      have hb256 : b < 256 := utf8Encode_lt_256 c b hb
      rcases hx with hx | hx | hx
      · subst hx
        exact ⟨by decide, by decide⟩
      · subst hx
        exact hexDigitChar_ne (b / 16) (by omega)
      · subst hx
        exact hexDigitChar_ne (b % 16) (by omega)

/-- No structural character appears in the escape of a string. -/
theorem escapeChars_ne (cs : List Char) :
    ∀ x ∈ escapeChars cs, x ≠ '&' ∧ x ≠ '=' := by
  intro x hx
  unfold escapeChars at hx
  simp at hx
  obtain ⟨c, _, hc⟩ := hx
  exact escapeQueryChar_ne c x hc

/-- Splitting a separator-free segment yields that segment alone. -/
theorem splitAmp_no_amp (seg : List Char) (h : '&' ∉ seg) : splitAmp seg = [seg] := by
  induction seg with
  | nil => rfl
  | cons c rest ih =>
    simp at h
    rw [splitAmp, if_neg (fun hc => h.1 hc.symm), ih h.2]
    rfl

/-- Splitting past a separator peels off the leading segment. -/
theorem splitAmp_append (seg t : List Char) (h : '&' ∉ seg) :
    splitAmp (seg ++ '&' :: t) = seg :: splitAmp t := by
  induction seg with
  | nil =>
    show splitAmp ('&' :: t) = [] :: splitAmp t
    rw [splitAmp, if_pos rfl]
  | cons c rest ih =>
    simp at h
    rw [List.cons_append, splitAmp, if_neg (fun hc => h.1 hc.symm), ih h.2]
    rfl

/-- Splitting the join of non-empty, separator-free segments recovers
them. -/
theorem splitAmp_joinAmp (segs : List (List Char))
    (hne : ∀ s ∈ segs, s ≠ []) (hamp : ∀ s ∈ segs, '&' ∉ s) :
    (splitAmp (joinAmp segs)).filter (fun seg => seg ≠ []) = segs := by
  induction segs with
  | nil => rfl
  | cons s segs ih =>
    cases segs with
    | nil =>
      rw [show joinAmp [s] = s from rfl, splitAmp_no_amp s (hamp s (by simp))]
      simp [List.filter, hne s (by simp)]
    | cons s2 segs2 =>
      rw [show joinAmp (s :: s2 :: segs2) = s ++ '&' :: joinAmp (s2 :: segs2) from rfl]
      rw [splitAmp_append _ _ (hamp s (by simp))]
      rw [List.filter_cons]
      rw [if_pos (by simp [hne s (by simp)])]
      rw [ih (fun x hx => hne x (List.mem_cons_of_mem _ hx))
        (fun x hx => hamp x (List.mem_cons_of_mem _ hx))]

/-- Cutting at the first `=` splits an `=`-free prefix from the suffix. -/
theorem cutEq_append (a b : List Char) (h : '=' ∉ a) : cutEq (a ++ '=' :: b) = (a, b) := by
  induction a with
  | nil =>
    show cutEq ('=' :: b) = ([], b)
    rw [cutEq, if_pos rfl]
  | cons c rest ih =>
    simp at h
    rw [List.cons_append, cutEq, if_neg (fun hc => h.1 hc.symm), ih h.2]

/-- A `key=value` segment is never empty. -/
theorem querySegment_ne_nil (kv : String × String) : querySegment kv ≠ [] := by
  unfold querySegment
  simp

/-- A `key=value` segment contains no separator. -/
theorem querySegment_no_amp (kv : String × String) : '&' ∉ querySegment kv := by
  unfold querySegment
  intro hmem
  rcases List.mem_append.1 hmem with h | h
  · exact (escapeChars_ne _ _ h).1 rfl
  · rcases List.mem_cons.1 h with h | h
    · exact absurd h.symm (by decide)
    · exact (escapeChars_ne _ _ h).1 rfl

/-- Parsing a `key=value` segment recovers the pair. -/
theorem parseSegment_querySegment (kv : String × String) :
    parseSegment (querySegment kv) = some kv := by
  unfold parseSegment querySegment
  rw [cutEq_append _ _ (fun hmem => (escapeChars_ne kv.1.data '=' hmem).2 rfl)]
  show (queryUnescape (escapeChars kv.1.data)).bind
    (fun k => (queryUnescape (escapeChars kv.2.data)).map (fun v => (k, v))) = some kv
  rw [queryUnescape_escapeChars, queryUnescape_escapeChars]
  rfl

/-- Traversing a mapped list whose elements all parse back succeeds. -/
theorem mapM_map_some {α β : Type} (xs : List α) (g : α → β) (f : β → Option α)
    (h : ∀ x ∈ xs, f (g x) = some x) : (xs.map g).mapM f = some xs := by
  induction xs with
  | nil => rfl
  | cons x xs ih =>
    rw [List.map_cons, List.mapM_cons, h x (List.mem_cons_self _ _),
      ih (fun y hy => h y (List.mem_cons_of_mem _ hy))]
    rfl

/-- `url.ParseQuery` inverts `url.Values.Encode`: parsing the encoded
query string yields exactly the pairs in encode order. -/
theorem parseQuery_encodeValues (pairs : List (String × String)) :
    parseQuery (encodeValues pairs) = some (encodeOrder pairs) := by
  unfold parseQuery encodeValues
  rw [show (String.mk (joinAmp ((encodeOrder pairs).map querySegment))).data =
    joinAmp ((encodeOrder pairs).map querySegment) from rfl]
  rw [splitAmp_joinAmp _
    (fun s hs => by
      obtain ⟨kv, _, hkv⟩ := List.mem_map.1 hs
      rw [← hkv]
      exact querySegment_ne_nil kv)
    (fun s hs => by
      obtain ⟨kv, _, hkv⟩ := List.mem_map.1 hs
      rw [← hkv]
      exact querySegment_no_amp kv)]
  exact mapM_map_some _ _ _ (fun kv _ => parseSegment_querySegment kv)

/-- `valuesOf` distributes over append. -/
theorem valuesOf_append (k : String) (xs ys : List (String × String)) :
    valuesOf k (xs ++ ys) = valuesOf k xs ++ valuesOf k ys :=
  List.filterMap_append xs ys _

/-- `valuesOf` on a constant-keyed pair list. -/
theorem valuesOf_map_const {α : Type} (k0 k : String) (xs : List α) (f : α → String) :
    valuesOf k (xs.map (fun x => (k0, f x))) = if k0 = k then xs.map f else [] := by
  induction xs with
  | nil => simp [valuesOf]
  | cons x xs ih =>
    rw [List.map_cons]
    unfold valuesOf at ih ⊢
    rw [List.filterMap_cons]
    by_cases h : k0 = k
    · rw [if_pos h] at ih ⊢
      simp only [if_pos h]
      rw [ih, List.map_cons]
    · rw [if_neg h] at ih ⊢
      simp only [if_neg h]
      rw [ih]

/-- A key absent from a pair list stores no values. -/
theorem valuesOf_eq_nil (k : String) (pairs : List (String × String))
    (h : k ∉ pairs.map Prod.fst) : valuesOf k pairs = [] := by
  induction pairs with
  | nil => rfl
  | cons kv pairs ih =>
    rw [List.map_cons] at h
    simp at h
    unfold valuesOf
    rw [List.filterMap_cons, if_neg (fun hk => h.1 hk.symm)]
    exact ih (by simp [h.2])

/-- Membership in the sorted key list. -/
theorem mem_sortedKeys (k : String) (pairs : List (String × String)) :
    k ∈ sortedKeys pairs ↔ k ∈ pairs.map Prod.fst := by
  unfold sortedKeys
  rw [List.mem_insertionSort, List.mem_dedup]

/-- The sorted key list has no duplicates. -/
theorem nodup_sortedKeys (pairs : List (String × String)) : (sortedKeys pairs).Nodup := by
  unfold sortedKeys
  exact (List.perm_insertionSort _ _).nodup_iff.2 (List.nodup_dedup _)

/-- `valuesOf` over the grouped pairs of a duplicate-free key list. -/
theorem valuesOf_flatMap_groups (k : String) (pairs : List (String × String)) :
    ∀ keys : List String, keys.Nodup →
    valuesOf k (keys.flatMap (fun k0 => (valuesOf k0 pairs).map (fun v => (k0, v)))) =
      if k ∈ keys then valuesOf k pairs else [] := by
  intro keys
  induction keys with
  | nil => intro _; simp [valuesOf]
  | cons k0 keys ih =>
    intro hnd
    rw [List.flatMap_cons, valuesOf_append, valuesOf_map_const k0 k _ (fun v => v)]
    rw [List.nodup_cons] at hnd
    by_cases h : k0 = k
    · subst h
      rw [if_pos rfl, ih hnd.2, if_neg hnd.1, List.append_nil]
      rw [if_pos (List.mem_cons_self _ _)]
      simp
    · rw [if_neg h, List.nil_append, ih hnd.2]
      by_cases hk : k ∈ keys
      · rw [if_pos hk, if_pos (List.mem_cons_of_mem _ hk)]
      · rw [if_neg hk, if_neg (by
          rw [List.mem_cons]
          rintro (hc | hc)
          · exact h hc.symm
          · exact hk hc)]

/-- The encode order preserves the stored values of every key. -/
theorem valuesOf_encodeOrder (k : String) (pairs : List (String × String)) :
    valuesOf k (encodeOrder pairs) = valuesOf k pairs := by
  unfold encodeOrder
  rw [valuesOf_flatMap_groups k pairs (sortedKeys pairs) (nodup_sortedKeys pairs)]
  by_cases h : k ∈ sortedKeys pairs
  · rw [if_pos h]
  · rw [if_neg h]
    rw [valuesOf_eq_nil k pairs (fun hm => h ((mem_sortedKeys k pairs).2 hm))]

/-- `valuesOf` on an empty pair list. -/
theorem valuesOf_nil (k : String) : valuesOf k [] = [] := rfl

/-- `valuesOf` on a cons pair list. -/
theorem valuesOf_cons (k k0 v : String) (rest : List (String × String)) :
    valuesOf k ((k0, v) :: rest) =
      if k0 = k then v :: valuesOf k rest else valuesOf k rest := by
  unfold valuesOf
  rw [List.filterMap_cons]
  by_cases h : k0 = k
  · rw [if_pos h, if_pos h]
  · rw [if_neg h, if_neg h]

/-- The stored values of each url key of `GetSubscribersParams`: scalar
fields store exactly one value (their zero value included), the slice
field stores one value per element in order. -/
theorem getSubscribers_valuesOf (p : GetSubscribersParams) :
    valuesOf ("query") p.queryPairs = [p.query] ∧
    valuesOf ("list_id") p.queryPairs = p.listID.map intToString ∧
    valuesOf ("subscription_status") p.queryPairs = [p.subscriptionStatus] ∧
    valuesOf ("order_by") p.queryPairs = [p.orderBy] ∧
    valuesOf ("order") p.queryPairs = [p.order] ∧
    valuesOf ("page") p.queryPairs = [intToString p.page] ∧
    valuesOf ("per_page") p.queryPairs = [intToString p.perPage] := by
  unfold GetSubscribersParams.queryPairs
  refine ⟨?_, ?_, ?_, ?_, ?_, ?_, ?_⟩ <;>
    simp [valuesOf_cons, valuesOf_append, valuesOf_map_const, valuesOf_nil]

/-- Encoding `GetSubscribersParams` into a query string and decoding that
string recovers every field value, and the repeated `list_id` keys carry
the slice's elements in their original order. -/
theorem query_encoding_roundtrip (p : GetSubscribersParams) :
    decodeGetSubscribersParams (GetSubscribersParams.encoded p) = some p ∧
    ∃ pairs, parseQuery (GetSubscribersParams.encoded p) = some pairs ∧
      valuesOf ("list_id") pairs = p.listID.map intToString := by
  obtain ⟨h1, h2, h3, h4, h5, h6, h7⟩ := getSubscribers_valuesOf p
  have hp : parseQuery (GetSubscribersParams.encoded p) = some (encodeOrder p.queryPairs) :=
    parseQuery_encodeValues p.queryPairs
  constructor
  · unfold decodeGetSubscribersParams GetSubscribersParams.encoded
    rw [parseQuery_encodeValues, Option.some_bind]
    simp only [valuesOf_encodeOrder]
    rw [h1, h2, h3, h4, h5, h6, h7]
    rw [mapM_map_some _ _ _ (fun i _ => parseGoInt_intToString i)]
    simp [parseGoInt_intToString]
  · exact ⟨_, hp, by rw [valuesOf_encodeOrder, h2]⟩

/-- C4: counterexample to the claimed omission of zero-valued fields — the
all-zero `GetSubscribersParams` (empty search query, no list ids, empty
status and ordering strings, page 0, page size 0) encodes to a query
string that sends every scalar field explicitly, `page=0` and `per_page=0`
included, instead of omitting them. -/
theorem query_zero_values_counterexample :
    GetSubscribersParams.encoded ⟨"", [], "", "", "", 0, 0⟩ =
      "order=&order_by=&page=0&per_page=0&query=&subscription_status=" := by decide

/-- C4 (amended): no `url` tag of the parameter struct carries
`omitempty`, so the encoder never omits a scalar field: for every
parameter object the encoded query string stores every scalar key with
exactly its field's value, zero-valued or not, and only the slice field
can contribute nothing (when it has zero elements; otherwise its key
appears once per element in order). -/
theorem query_zero_values_not_omitted (p : GetSubscribersParams) :
    ∃ pairs, parseQuery (GetSubscribersParams.encoded p) = some pairs ∧
      valuesOf ("query") pairs = [p.query] ∧
      valuesOf ("subscription_status") pairs = [p.subscriptionStatus] ∧
      valuesOf ("order_by") pairs = [p.orderBy] ∧
      valuesOf ("order") pairs = [p.order] ∧
      valuesOf ("page") pairs = [intToString p.page] ∧
      valuesOf ("per_page") pairs = [intToString p.perPage] ∧
      valuesOf ("list_id") pairs = p.listID.map intToString := by
  obtain ⟨h1, h2, h3, h4, h5, h6, h7⟩ := getSubscribers_valuesOf p
  refine ⟨encodeOrder p.queryPairs, parseQuery_encodeValues p.queryPairs,
    ?_, ?_, ?_, ?_, ?_, ?_, ?_⟩ <;> rw [valuesOf_encodeOrder] <;>
    first | exact h1 | exact h2 | exact h3 | exact h4 | exact h5 | exact h6 | exact h7

/-- `FormatBool` then its reading back is the identity. -/
theorem parseGoBool_boolToString (b : Bool) : parseGoBool (boolToString b) = some b := by
  cases b <;> rfl

/-- `valuesOf` across a map that pairs a constant key with each element
itself. -/
theorem valuesOf_map_self (k0 k : String) (xs : List String) :
    valuesOf k (xs.map (fun x => (k0, x))) = if k0 = k then xs else [] := by
  rw [valuesOf_map_const k0 k xs (fun x => x)]
  by_cases h : k0 = k
  · rw [if_pos h, if_pos h, List.map_id']
  · rw [if_neg h, if_neg h]

/-- The stored values of each url key of `GetCampaignParams`: scalar
fields store exactly one value (their zero value included), the two
slice fields store one value per element in order. -/
theorem getCampaign_valuesOf (p : GetCampaignParams) :
    valuesOf ("order") p.queryPairs = [p.order] ∧
    valuesOf ("order_by") p.queryPairs = [p.orderBy] ∧
    valuesOf ("query") p.queryPairs = [p.query] ∧
    valuesOf ("status") p.queryPairs = p.status ∧
    valuesOf ("tags") p.queryPairs = p.tags ∧
    valuesOf ("page") p.queryPairs = [intToString p.page] ∧
    valuesOf ("per_page") p.queryPairs = [intToString p.perPage] ∧
    valuesOf ("no_body") p.queryPairs = [boolToString p.noBody] := by
  unfold GetCampaignParams.queryPairs
  refine ⟨?_, ?_, ?_, ?_, ?_, ?_, ?_, ?_⟩ <;>
    simp [valuesOf_cons, valuesOf_append, valuesOf_map_self, valuesOf_map_const, valuesOf_nil]

/-- Encoding `GetCampaignParams` into a query string and decoding that
string recovers every field value. -/
theorem getCampaign_roundtrip (p : GetCampaignParams) :
    decodeGetCampaignParams (GetCampaignParams.encoded p) = some p := by
  obtain ⟨h1, h2, h3, h4, h5, h6, h7, h8⟩ := getCampaign_valuesOf p
  unfold decodeGetCampaignParams GetCampaignParams.encoded
  rw [parseQuery_encodeValues, Option.some_bind]
  simp only [valuesOf_encodeOrder]
  rw [h1, h2, h3, h4, h5, h6, h7, h8]
  simp [parseGoInt_intToString, parseGoBool_boolToString]

/-- The stored values of each url key of `GetCampaignViewsParams`: the
`id` key stores one value per element in order, the two time keys store
their RFC3339 renderings — and no key stores the `Type` field, whose tag
is `url:"-"`. -/
theorem getCampaignViews_valuesOf (p : GetCampaignViewsParams) :
    valuesOf ("id") p.queryPairs = p.ids.map intToString ∧
    valuesOf ("from") p.queryPairs = [p.fromTime.rfc3339] ∧
    valuesOf ("to") p.queryPairs = [p.toTime.rfc3339] := by
  unfold GetCampaignViewsParams.queryPairs
  refine ⟨?_, ?_, ?_⟩ <;>
    simp [valuesOf_cons, valuesOf_append, valuesOf_map_const, valuesOf_nil]

/-- Encoding `GetCampaignViewsParams` and decoding recovers exactly the
encoded fields; the never-encoded `Type` field comes back as its zero
value. -/
theorem getCampaignViews_roundtrip (q : GetCampaignViewsParams) :
    decodeGetCampaignViewsParams (GetCampaignViewsParams.encoded q) =
      some { q with type := "" } := by
  obtain ⟨h1, h2, h3⟩ := getCampaignViews_valuesOf q
  unfold decodeGetCampaignViewsParams GetCampaignViewsParams.encoded
  rw [parseQuery_encodeValues, Option.some_bind]
  simp only [valuesOf_encodeOrder]
  rw [h1, h2, h3]
  rw [mapM_map_some _ _ _ (fun i _ => parseGoInt_intToString i)]
  simp

/-- C8: counterexample — `GetCampaignViewsParams.Type` carries the tag
`url:"-"`, which go-querystring never encodes, so two distinct parameter
objects differing only in that field produce the identical query string;
no decoding of that string can recover both, refuting the round-trip
quantified over every supported parameter object. -/
theorem query_roundtrip_counterexample :
    GetCampaignViewsParams.encoded
        ⟨[7], "views", ⟨"2024-01-01T00:00:00Z"⟩, ⟨"2024-01-02T00:00:00Z"⟩⟩ =
      GetCampaignViewsParams.encoded
        ⟨[7], "clicks", ⟨"2024-01-01T00:00:00Z"⟩, ⟨"2024-01-02T00:00:00Z"⟩⟩ ∧
    (⟨[7], "views", ⟨"2024-01-01T00:00:00Z"⟩, ⟨"2024-01-02T00:00:00Z"⟩⟩ :
        GetCampaignViewsParams) ≠
      ⟨[7], "clicks", ⟨"2024-01-01T00:00:00Z"⟩, ⟨"2024-01-02T00:00:00Z"⟩⟩ :=
  ⟨rfl, by decide⟩

/-- C8 (amended): the round-trip holds exactly for the encoded fields.
For parameter objects whose fields all carry real url keys —
`GetSubscribersParams` (string, int and int-slice fields) and
`GetCampaignParams` (adding string-slice and bool fields) — encoding then
decoding recovers every field value, with the repeated keys of each
slice-valued field appearing in the slice's original element order.  For
`GetCampaignViewsParams`, whose `Type` field is tagged `url:"-"` and so
is never encoded, decoding recovers exactly the encoded fields (the ids
and the RFC3339-rendered date range) while `Type` comes back as its zero
value: the encoded query string is identical for any two values of that
field, so the full round-trip cannot hold there. -/
theorem query_roundtrip_where_encoded (p : GetSubscribersParams)
    (l : GetCampaignParams) (q : GetCampaignViewsParams)
    (t1 t2 : CampaignStatType) :
    (decodeGetSubscribersParams (GetSubscribersParams.encoded p) = some p ∧
      ∃ pairs, parseQuery (GetSubscribersParams.encoded p) = some pairs ∧
        valuesOf ("list_id") pairs = p.listID.map intToString) ∧
    (decodeGetCampaignParams (GetCampaignParams.encoded l) = some l ∧
      ∃ pairs, parseQuery (GetCampaignParams.encoded l) = some pairs ∧
        valuesOf ("status") pairs = l.status ∧
        valuesOf ("tags") pairs = l.tags) ∧
    decodeGetCampaignViewsParams (GetCampaignViewsParams.encoded q) =
      some { q with type := "" } ∧
    GetCampaignViewsParams.encoded { q with type := t1 } =
      GetCampaignViewsParams.encoded { q with type := t2 } := by
  obtain ⟨h1, h2⟩ := query_encoding_roundtrip p
  obtain ⟨c1, c2, c3, c4, c5, c6, c7, c8⟩ := getCampaign_valuesOf l
  refine ⟨⟨h1, h2⟩,
    ⟨getCampaign_roundtrip l,
      encodeOrder l.queryPairs, parseQuery_encodeValues l.queryPairs, ?_, ?_⟩,
    getCampaignViews_roundtrip q, rfl⟩
  · rw [valuesOf_encodeOrder]; exact c4
  · rw [valuesOf_encodeOrder]; exact c5
